import Mathlib

/-
  Verification development for the `egui_gauge` crate (`src/lib.rs`).

  The numeric model: Rust `f64`/`f32` values are embedded as exact rationals
  (`ℚ`); floating-point rounding is not modelled, but truncating casts
  (`as i32`, which in Rust truncates toward zero and saturates at the `i32`
  bounds) are modelled exactly.  A separate small type `F` additionally
  models the IEEE NaN value for the one place where it matters (the tick
  label loop).

  Geometry produced after applying trigonometric functions lives in `ℝ`.
-/

namespace EguiGauge

/-- Model of `epaint::Color32`: an sRGBA color with four 8-bit channels. -/
structure Color32 where
  r : ℕ
  g : ℕ
  b : ℕ
  a : ℕ
deriving DecidableEq, Repr

/-- `Color32::WHITE`. -/
def Color32.WHITE : Color32 := ⟨255, 255, 255, 255⟩

/-- `Color32::GRAY`. -/
def Color32.GRAY : Color32 := ⟨160, 160, 160, 255⟩

/-- Model of `epaint::Pos2` (screen coordinates, `f32` embedded as `ℚ`). -/
structure Pos2 where
  x : ℚ
  y : ℚ
deriving DecidableEq

/-- Model of `egui::Rect` (axis-aligned rectangle given by two corners). -/
structure Rect where
  min : Pos2
  max : Pos2
deriving DecidableEq

/-- `Rect::left`. -/
def Rect.left (r : Rect) : ℚ := r.min.x

/-- `Rect::bottom`. -/
def Rect.bottom (r : Rect) : ℚ := r.max.y

/-- `Rect::width`. -/
def Rect.width (r : Rect) : ℚ := r.max.x - r.min.x

/-- `Rect::height`. -/
def Rect.height (r : Rect) : ℚ := r.max.y - r.min.y

/-- The `Gauge` struct from `src/lib.rs` (fields in source order). -/
structure Gauge where
  value : ℚ
  min_value : ℚ
  max_value : ℚ
  size : ℚ
  color : Color32
  text : String
deriving DecidableEq

/-- `Gauge::new`: the range is passed as its two endpoints; `text` defaults
to the empty string. -/
def Gauge.new (value min_value max_value : ℚ) (size : ℚ) (color : Color32) : Gauge :=
  ⟨value, min_value, max_value, size, color, ""⟩

/-- The builder method `Gauge::text` (renamed: `text` is taken by the field). -/
def Gauge.set_text (g : Gauge) (t : String) : Gauge := { g with text := t }

/-- `Gauge::text_clearance`: `self.size / 10.0`. -/
def Gauge.text_clearance (g : Gauge) : ℚ := g.size / 10

/-- `Gauge::inner_width`: `self.size - self.text_clearance() * 2.0`. -/
def Gauge.inner_width (g : Gauge) : ℚ := g.size - g.text_clearance * 2

/-- `Gauge::radius`: `self.inner_width() / 2.0`. -/
def Gauge.radius (g : Gauge) : ℚ := g.inner_width / 2

/-- `Gauge::thickness`: `self.inner_width() / 15.0`. -/
def Gauge.thickness (g : Gauge) : ℚ := g.inner_width / 15

/-- `Gauge::center`: `(rect.left() + rect.width()/2, rect.bottom() - rect.height()/2)`. -/
def Gauge.center (g : Gauge) (rect : Rect) : Pos2 :=
  ⟨rect.left + rect.width / 2, rect.bottom - rect.height / 2⟩

/-- Truncation toward zero, the rounding used by Rust's float-to-int `as` cast. -/
def truncQ (q : ℚ) : ℤ := if 0 ≤ q then ⌊q⌋ else ⌈q⌉

/-- Saturation to the `i32` range, as performed by Rust's `as i32` cast. -/
def i32sat (t : ℤ) : ℤ := max (-(2 ^ 31)) (min (2 ^ 31 - 1) t)

/-- Rust `f64 as i32`: truncate toward zero, saturating at the `i32` bounds
(the NaN case is handled in the separate `F` model). -/
def f64_as_i32 (q : ℚ) : ℤ := i32sat (truncQ q)

/-- `Gauge::value_to_angle`:
`((270.0 - ((v - self.min_value) / (self.max_value - self.min_value)) * 270.0) - 45.0) as i32`. -/
def Gauge.value_to_angle (g : Gauge) (v : ℚ) : ℤ :=
  f64_as_i32 ((270 - ((v - g.min_value) / (g.max_value - g.min_value)) * 270) - 45)

/-- `Gauge::angle`: `self.value_to_angle(self.value)`. -/
def Gauge.angle (g : Gauge) : ℤ := g.value_to_angle g.value

/-- The Rust inclusive integer range `a..=b` as the list `[a, a+1, …, b]`
(empty when `a > b`), the shape of `(-45..=225)` and `(self.angle()..=225)`
iterators in the paint code. -/
def intRangeIncl (a b : ℤ) : List ℤ :=
  (List.range (b + 1 - a).toNat).map (fun i : ℕ => a + (i : ℤ))

/-- One pass of the bottom of the tick-label loop in
`Gauge::write_values_around_circle`:
`value += (max_value - min_value) / 6.0; if (max_value - value) < 1.0 { value = max_value }`. -/
def tickStep (mn mx value : ℚ) : ℚ :=
  let v := value + (mx - mn) / 6
  if mx - v < 1 then mx else v

/-- The tick-label loop of `Gauge::write_values_around_circle`, with fuel.
Each iteration emits the current `value` and breaks when `value == max_value`;
otherwise it advances by `tickStep`.  Over exact rationals fuel 8 always
suffices (`tickLoopAux_total`); `none` means the fuel ran out. -/
def tickLoopAux : ℕ → ℚ → ℚ → ℚ → Option (List ℚ)
  | 0, _, _, _ => none
  | n + 1, mn, mx, value =>
    if value = mx then some [value]
    else (tickLoopAux n mn mx (tickStep mn mx value)).map (fun l => value :: l)

/-- The values at which `Gauge::write_values_around_circle` places tick
labels, starting the loop at `value = min_value` with fuel 8 (sufficient by
`tickLoopAux_total`, so the `[]` default is never used). -/
def ticksList (mn mx : ℚ) : List ℚ := (tickLoopAux 8 mn mx mn).getD []

/-- The tick positions as the spec's words describe them: "seven positions
evenly spaced from `min_value` to `max_value` (value, value+step, …,
max_value where `step=(max−min)/6`)".  Stated from the spec for comparison
with the code's `ticksList`. -/
def specTickPositions (mn mx : ℚ) : List ℚ :=
  (List.range 7).map (fun k : ℕ => mn + (k : ℚ) * ((mx - mn) / 6))

/-- The integer angles swept by the colored value arc in
`Gauge::paint_colored_circle`: the Rust iterator `(self.angle()..=225)`. -/
def Gauge.coloredArcAngles (g : Gauge) : List ℤ := intRangeIncl g.angle 225

/-- An `f64` that may be NaN: `nan`, or a finite value (modelled exactly as a
rational).  Infinities are not modelled; this type exists to track the IEEE
rule that NaN propagates through arithmetic and makes every comparison
(including equality) false, which is what drives the tick loop on NaN input. -/
inductive F where
  | nan : F
  | fin : ℚ → F
deriving DecidableEq, Repr

/-- IEEE subtraction restricted to the modelled values: NaN propagates. -/
def F.sub : F → F → F
  | .fin a, .fin b => .fin (a - b)
  | _, _ => .nan

/-- IEEE addition restricted to the modelled values: NaN propagates. -/
def F.add : F → F → F
  | .fin a, .fin b => .fin (a + b)
  | _, _ => .nan

/-- IEEE division restricted to the modelled values: NaN propagates, and a
zero divisor gives NaN (the infinite results of `finite/0` are outside this
model and unused by the theorems below). -/
def F.div : F → F → F
  | .fin a, .fin b => if b = 0 then .nan else .fin (a / b)
  | _, _ => .nan

/-- IEEE `==`: false whenever either operand is NaN. -/
def F.beq : F → F → Bool
  | .fin a, .fin b => a == b
  | _, _ => false

/-- IEEE `<`: false whenever either operand is NaN. -/
def F.lt : F → F → Bool
  | .fin a, .fin b => decide (a < b)
  | _, _ => false

/-- `tickStep` on possibly-NaN floats:
`value + (max_value - min_value) / 6.0`, then the snap test
`(max_value - value) < 1.0`. -/
def tickStepF (mn mx value : F) : F :=
  let v := value.add ((mx.sub mn).div (F.fin 6))
  if (mx.sub v).lt (F.fin 1) then mx else v

/-- The tick-label loop of `Gauge::write_values_around_circle` on
possibly-NaN floats, with fuel; `none` means the fuel was exhausted without
the loop terminating. -/
def tickLoopF : ℕ → F → F → F → Option (List F)
  | 0, _, _, _ => none
  | n + 1, mn, mx, value =>
    if value.beq mx then some [value]
    else (tickLoopF n mn mx (tickStepF mn mx value)).map (fun l => value :: l)

/-- A geometric point produced after applying trigonometry (real-valued). -/
structure RPos where
  x : ℝ
  y : ℝ

/-- Embed a rational screen position into the real plane. -/
def Pos2.toR (p : Pos2) : RPos := ⟨(p.x : ℝ), (p.y : ℝ)⟩

/-- `(angle as f32 * PI / 180.0).cos()`, with exact real trigonometry. -/
noncomputable def cosDeg (a : ℤ) : ℝ := Real.cos ((a : ℝ) * Real.pi / 180)

/-- `(angle as f32 * PI / 180.0).sin()`, with exact real trigonometry. -/
noncomputable def sinDeg (a : ℤ) : ℝ := Real.sin ((a : ℝ) * Real.pi / 180)

/-- `Gauge::x_f`: `self.center(rect).x + (angle * PI / 180).cos() * radius`. -/
noncomputable def Gauge.x_f (g : Gauge) (rect : Rect) (angle : ℤ) (radius : ℚ) : ℝ :=
  ((g.center rect).x : ℝ) + cosDeg angle * (radius : ℝ)

/-- `Gauge::y_f`: `self.center(rect).y - (angle * PI / 180).sin() * radius`. -/
noncomputable def Gauge.y_f (g : Gauge) (rect : Rect) (angle : ℤ) (radius : ℚ) : ℝ :=
  ((g.center rect).y : ℝ) - sinDeg angle * (radius : ℝ)

/-- The slice of the host UI style that the paint pass reads: the dark-mode
flag, the noninteractive text color and background fill, and the text-layout
oracle used by `write_text` (the width and height the host's layout engine
returns for a string at a given font size and wrap width). -/
structure UiStyle where
  dark_mode : Bool
  text_color : Color32
  bg_fill : Color32
  layoutSize : String → ℚ → ℚ → ℚ × ℚ

/-- One host-painter call emitted by the paint pass, in emission order:
`painter().add(Shape::Path ..)`, `painter().circle(..)`,
`painter().text(..)` and `painter().galley(..)`. -/
inductive PaintOp where
  | path (points : List RPos) (closed : Bool) (fill : Color32)
      (strokeWidth : ℚ) (strokeColor : Color32)
  | circle (center : RPos) (radius : ℚ) (fill : Color32)
      (strokeWidth : ℚ) (strokeColor : Color32)
  | text (pos : RPos) (s : String) (fontSize : ℚ) (color : Color32)
  | galley (pos : RPos) (s : String) (fontSize : ℚ) (wrapWidth : ℚ)
      (color : Color32) (bg : Color32)

/-- `Gauge::paint_background_circle`: the wedge from −45° to 225° at
`radius`, fanning out from the center, filled with the track color.  Like the
Rust method (which takes `&mut self` but assigns no field) it returns the
gauge unchanged next to the emitted shapes. -/
noncomputable def Gauge.paint_background_circle (g : Gauge) (rect : Rect)
    (arc_bg_color bg_color : Color32) : Gauge × List PaintOp :=
  (g, [PaintOp.path
    ((intRangeIncl (-45) 225).map
        (fun a => ⟨g.x_f rect a g.radius, g.y_f rect a g.radius⟩)
      ++ [(g.center rect).toR])
    true arc_bg_color 0 bg_color])

/-- `Gauge::paint_colored_circle`: the wedge from `self.angle()` to 225° at
`radius`, fanning out from the center, filled with the accent color. -/
noncomputable def Gauge.paint_colored_circle (g : Gauge) (rect : Rect)
    (bg_color : Color32) : Gauge × List PaintOp :=
  (g, [PaintOp.path
    (g.coloredArcAngles.map
        (fun a => ⟨g.x_f rect a g.radius, g.y_f rect a g.radius⟩)
      ++ [(g.center rect).toR])
    true g.color 0 bg_color])

/-- `Gauge::paint_center_mask`: the disc sector at `radius − thickness` from
−45° to 225°, background-colored (no center point is chained here). -/
noncomputable def Gauge.paint_center_mask (g : Gauge) (rect : Rect)
    (bg_color : Color32) : Gauge × List PaintOp :=
  (g, [PaintOp.path
    ((intRangeIncl (-45) 225).map (fun a =>
      ⟨g.x_f rect a (g.radius - g.thickness), g.y_f rect a (g.radius - g.thickness)⟩))
    true bg_color 0 bg_color])

/-- `Gauge::paint_skirt_mask`: the quadrilateral between the ring's two open
ends, background-colored with a stroke of width 2. -/
noncomputable def Gauge.paint_skirt_mask (g : Gauge) (rect : Rect)
    (bg_color : Color32) : Gauge × List PaintOp :=
  (g, [PaintOp.path
    [⟨g.x_f rect (-45) g.radius, g.y_f rect (-45) g.radius⟩,
     ⟨g.x_f rect 225 g.radius, g.y_f rect 225 g.radius⟩,
     ⟨g.x_f rect 225 (g.radius - g.thickness), g.y_f rect 225 (g.radius - g.thickness)⟩,
     ⟨g.x_f rect (-45) (g.radius - g.thickness), g.y_f rect (-45) (g.radius - g.thickness)⟩]
    true bg_color 2 bg_color])

/-- `Gauge::paint_end_caps`: the accent-colored cap at 225° followed by the
track-colored cap at −45°, both at `radius − thickness/2`. -/
noncomputable def Gauge.paint_end_caps (g : Gauge) (rect : Rect)
    (bg_color arc_bg_color : Color32) : Gauge × List PaintOp :=
  (g, [PaintOp.circle
        ⟨g.x_f rect 225 (g.radius - g.thickness / 2),
         g.y_f rect 225 (g.radius - g.thickness / 2)⟩
        (g.thickness / 2) g.color 0 bg_color,
      PaintOp.circle
        ⟨g.x_f rect (-45) (g.radius - g.thickness / 2),
         g.y_f rect (-45) (g.radius - g.thickness / 2)⟩
        (g.thickness / 2) arc_bg_color 0 bg_color])

/-- `Gauge::paint_value_circle`: the white indicator dot at `self.angle()`
along the ring's mid-radius, stroked with the accent color. -/
noncomputable def Gauge.paint_value_circle (g : Gauge) (rect : Rect) :
    Gauge × List PaintOp :=
  (g, [PaintOp.circle
    ⟨g.x_f rect g.angle (g.radius - g.thickness / 2),
     g.y_f rect g.angle (g.radius - g.thickness / 2)⟩
    (g.thickness / 2) Color32.WHITE 1 g.color])

/-- `Gauge::write_center_value`: the value's decimal form at the center,
font size `inner_width / 5`. -/
noncomputable def Gauge.write_center_value (g : Gauge) (rect : Rect)
    (text_color : Color32) : Gauge × List PaintOp :=
  (g, [PaintOp.text (g.center rect).toR (toString g.value) (g.inner_width / 5) text_color])

/-- `Gauge::write_values_around_circle`: one integer-truncated label per tick
value, anchored at `radius + thickness`, font size `inner_width / 15`. -/
noncomputable def Gauge.write_values_around_circle (g : Gauge) (rect : Rect)
    (text_color : Color32) : Gauge × List PaintOp :=
  (g, (ticksList g.min_value g.max_value).map (fun v =>
    PaintOp.text
      ⟨g.x_f rect (g.value_to_angle v) (g.radius + g.thickness),
       g.y_f rect (g.value_to_angle v) (g.radius + g.thickness)⟩
      (toString (f64_as_i32 v)) (g.inner_width / 15) text_color))

/-- `Gauge::write_text`: the caption galley, wrapped to two thirds of the
inner width, placed below the center using the host layout's returned size. -/
noncomputable def Gauge.write_text (g : Gauge) (ui : UiStyle) (rect : Rect)
    (text_color : Color32) : Gauge × List PaintOp :=
  let wrap_width := g.inner_width * 2 / 3
  let sz := ui.layoutSize g.text (g.inner_width / 10) wrap_width
  (g, [PaintOp.galley
    ⟨((g.center rect).x : ℝ) - (sz.1 : ℝ) / 2,
     ((g.center rect).y : ℝ) + (g.inner_width : ℝ) / 5 - (sz.2 : ℝ) / 2⟩
    g.text (g.inner_width / 10) wrap_width text_color ui.bg_fill])

/-- The rectangle `paint` computes from `outer_rect` by insetting each side
by `text_clearance`. -/
def Gauge.insetRect (g : Gauge) (outer_rect : Rect) : Rect :=
  ⟨⟨outer_rect.min.x + g.text_clearance, outer_rect.min.y + g.text_clearance⟩,
   ⟨outer_rect.max.x - g.text_clearance, outer_rect.max.y - g.text_clearance⟩⟩

/-- The theme-dependent track color chosen at the top of `paint`:
white in dark mode, gray otherwise. -/
def arcBgColor (ui : UiStyle) : Color32 :=
  if ui.dark_mode then Color32.WHITE else Color32.GRAY

/-- `Gauge::paint`: the nine layers in source order, with the caption layer
guarded by `!self.text.is_empty()`.  The `&mut self` receiver is threaded
through every sub-call. -/
noncomputable def Gauge.paint (g : Gauge) (ui : UiStyle) (outer_rect : Rect) :
    Gauge × List PaintOp :=
  let rect := g.insetRect outer_rect
  let text_color := ui.text_color
  let bg_color := ui.bg_fill
  let r1 := g.paint_background_circle rect (arcBgColor ui) bg_color
  let r2 := r1.1.paint_colored_circle rect bg_color
  let r3 := r2.1.paint_center_mask rect bg_color
  let r4 := r3.1.paint_skirt_mask rect bg_color
  let r5 := r4.1.paint_end_caps rect bg_color (arcBgColor ui)
  let r6 := r5.1.paint_value_circle rect
  let r7 := r6.1.write_center_value rect text_color
  let r8 := r7.1.write_values_around_circle rect text_color
  let r9 := if r8.1.text.isEmpty then (r8.1, ([] : List PaintOp))
            else r8.1.write_text ui rect text_color
  (r9.1, r1.2 ++ r2.2 ++ r3.2 ++ r4.2 ++ r5.2 ++ r6.2 ++ r7.2 ++ r8.2 ++ r9.2)

/-- The information `add_contents` publishes via `widget_info`:
`WidgetInfo::slider(true, self.value, &self.text)`. -/
structure WidgetInfo where
  is_slider : Bool
  value : ℚ
  label : String
deriving DecidableEq

/-- The part of `egui::Response` this model observes: the allotted rectangle
and the published accessibility info. -/
structure Response where
  rect : Rect
  info : WidgetInfo

/-- `Gauge::add_contents`: allocate an exact `size × size` rectangle (its
origin `(x0, y0)` is the host's choice), publish the widget info, and paint
only when the rectangle is visible. -/
noncomputable def Gauge.add_contents (g : Gauge) (ui : UiStyle) (x0 y0 : ℚ)
    (visible : Bool) : Gauge × List PaintOp × Response :=
  let rect : Rect := ⟨⟨x0, y0⟩, ⟨x0 + g.size, y0 + g.size⟩⟩
  let response : Response := ⟨rect, ⟨true, g.value, g.text⟩⟩
  let r := if visible then g.paint ui rect else (g, [])
  (r.1, r.2, response)

/-- The geometry anchor points of an emitted paint call: the perimeter and
center points of a path, the center of a circle, and the anchor position of
a text call.  The position of a caption galley depends on the host's text
layout and is not a pure geometry anchor. -/
def PaintOp.anchorPoints : PaintOp → List RPos
  | .path pts _ _ _ _ => pts
  | .circle c _ _ _ _ => [c]
  | .text p _ _ _ => [p]
  | .galley _ _ _ _ _ _ => []

/-- Strict containment of a point in a rectangle. -/
def insideRect (r : Rect) (p : RPos) : Prop :=
  (r.min.x : ℝ) < p.x ∧ p.x < (r.max.x : ℝ) ∧ (r.min.y : ℝ) < p.y ∧ p.y < (r.max.y : ℝ)

/-- The square rectangle of side `d` the host allots at origin `(x0, y0)`. -/
def squareRect (x0 y0 d : ℚ) : Rect := ⟨⟨x0, y0⟩, ⟨x0 + d, y0 + d⟩⟩

/-- A concrete style used by witness instances. -/
def sampleStyle : UiStyle := ⟨false, Color32.WHITE, Color32.GRAY, fun _ _ _ => (10, 10)⟩

lemma intRangeIncl_length (a b : ℤ) : (intRangeIncl a b).length = (b + 1 - a).toNat := by
  rw [intRangeIncl, List.length_map, List.length_range]

/- ### Helper lemmas about the tick loop -/

lemma tickLoopAux_zero (mn mx value : ℚ) : tickLoopAux 0 mn mx value = none := rfl

lemma tickLoopAux_succ (n : ℕ) (mn mx value : ℚ) :
    tickLoopAux (n + 1) mn mx value =
      if value = mx then some [value]
      else (tickLoopAux n mn mx (tickStep mn mx value)).map (fun l => value :: l) := rfl

lemma tickLoopAux_at_max (n : ℕ) (mn mx : ℚ) (hn : n ≠ 0) :
    tickLoopAux n mn mx mx = some [mx] := by
  cases n with
  | zero => exact absurd rfl hn
  | succ m => rw [tickLoopAux_succ, if_pos rfl]

lemma tickStep_spec (mn mx value : ℚ) (hmn : mn < mx) (hv : value < mx) :
    value < tickStep mn mx value ∧ tickStep mn mx value ≤ mx ∧
      (tickStep mn mx value = mx ∨ 1 ≤ mx - tickStep mn mx value) := by
  have hs : 0 < (mx - mn) / 6 := div_pos (by linarith) (by norm_num)
  simp only [tickStep]
  by_cases hsnap : mx - (value + (mx - mn) / 6) < 1
  · rw [if_pos hsnap]
    exact ⟨hv, le_refl mx, Or.inl rfl⟩
  · rw [if_neg hsnap]
    push_neg at hsnap
    exact ⟨by linarith, by linarith, Or.inr (by linarith)⟩

/-- Invariant of the tick-label loop over exact rationals: when it returns a
list, the list starts at the starting `value`, ends at `max_value`, is
strictly increasing, and every element other than the last is either the
starting value or at distance at least 1 below `max_value` (and in any case
strictly below `max_value`). -/
lemma tickLoopAux_spec :
    ∀ (n : ℕ) (mn mx value : ℚ) (l : List ℚ), mn < mx → value ≤ mx →
      tickLoopAux n mn mx value = some l →
      l.head? = some value ∧ l.getLast? = some mx ∧ l.Chain' (· < ·) ∧
        ∀ t ∈ l.dropLast, (t = value ∨ 1 ≤ mx - t) ∧ t < mx := by
  intro n
  induction n with
  | zero =>
    intro mn mx value l _ _ hl
    simp [tickLoopAux_zero] at hl
  | succ m ih =>
    intro mn mx value l hmn hv hl
    rw [tickLoopAux_succ] at hl
    by_cases heq : value = mx
    · rw [if_pos heq] at hl
      obtain rfl : [value] = l := by injection hl
      subst heq
      refine ⟨rfl, rfl, List.chain'_singleton value, ?_⟩
      intro t ht
      simp at ht
    · rw [if_neg heq] at hl
      have hvlt : value < mx := lt_of_le_of_ne hv heq
      obtain ⟨rest, hrest, rfl⟩ := Option.map_eq_some'.mp hl
      obtain ⟨hstep1, hstep2, hstep3⟩ := tickStep_spec mn mx value hmn hvlt
      by_cases hsm : tickStep mn mx value = mx
      · have hrest_eq : rest = [mx] := by
          cases m with
          | zero => rw [tickLoopAux_zero] at hrest; exact absurd hrest (by simp)
          | succ k =>
            rw [hsm, tickLoopAux_at_max (k + 1) mn mx (Nat.succ_ne_zero k)] at hrest
            injection hrest with h
            exact h.symm
        subst hrest_eq
        refine ⟨rfl, rfl, List.chain'_pair.mpr hvlt, ?_⟩
        intro t ht
        simp only [List.dropLast, List.mem_singleton] at ht
        subst ht
        exact ⟨Or.inl rfl, hvlt⟩
      · obtain ⟨hhd, hlast, hchain, hdrop⟩ :=
          ih mn mx (tickStep mn mx value) rest hmn hstep2 hrest
        have hrest_ne : rest ≠ [] := by
          intro hnil
          rw [hnil] at hhd
          exact absurd hhd (by simp)
        obtain ⟨r, rs, rfl⟩ := List.exists_cons_of_ne_nil hrest_ne
        have hdist : 1 ≤ mx - tickStep mn mx value := hstep3.resolve_left hsm
        refine ⟨rfl, ?_, ?_, ?_⟩
        · rw [List.getLast?_cons_cons]
          exact hlast
        · refine List.chain'_cons'.mpr ⟨?_, hchain⟩
          intro y hy
          have h1 : r = tickStep mn mx value := by
            have h0 := hhd
            rw [List.head?_cons] at h0
            injection h0
          have h2 : y = r := by
            have := hy
            simp at this
            exact this.symm
          rw [h2, h1]
          exact hstep1
        · intro t ht
          rw [show (value :: r :: rs).dropLast = value :: (r :: rs).dropLast by simp] at ht
          rcases List.mem_cons.mp ht with h1 | h1
          · subst h1
            exact ⟨Or.inl rfl, hvlt⟩
          · obtain ⟨hd1, hd2⟩ := hdrop t h1
            refine ⟨Or.inr ?_, hd2⟩
            rcases hd1 with h2 | h2
            · rw [h2]
              exact hdist
            · exact h2

/-- The snap-to-max rule bounds the loop: over exact rationals a fuel of 8
iterations always suffices, for every pair of range endpoints. -/
lemma tickLoopAux_ladder (mn mx : ℚ) (hmn : mn < mx) :
    ∀ j k : ℕ, j + k = 6 →
      ∃ l, tickLoopAux (j + 2) mn mx (mn + (k : ℚ) * ((mx - mn) / 6)) = some l := by
  intro j
  induction j with
  | zero =>
    intro k hk
    obtain rfl : k = 6 := by omega
    have hval : mn + ((6 : ℕ) : ℚ) * ((mx - mn) / 6) = mx := by
      push_cast
      field_simp
    rw [hval]
    exact ⟨[mx], tickLoopAux_at_max 2 mn mx (by norm_num)⟩
  | succ j ih =>
    intro k hk
    have hk5 : k ≤ 5 := by omega
    have hk5q : (k : ℚ) ≤ 5 := by exact_mod_cast hk5
    have hspos : 0 < (mx - mn) / 6 := div_pos (by linarith) (by norm_num)
    have hmx6 : mx = mn + 6 * ((mx - mn) / 6) := by field_simp
    have hvlt : mn + (k : ℚ) * ((mx - mn) / 6) < mx := by nlinarith
    rw [show j + 1 + 2 = (j + 2) + 1 by omega, tickLoopAux_succ, if_neg (ne_of_lt hvlt)]
    by_cases hsnap : mx - (mn + (k : ℚ) * ((mx - mn) / 6) + (mx - mn) / 6) < 1
    · have hstep : tickStep mn mx (mn + (k : ℚ) * ((mx - mn) / 6)) = mx := by
        simp only [tickStep]
        rw [if_pos hsnap]
      rw [hstep, tickLoopAux_at_max (j + 2) mn mx (by omega)]
      exact ⟨_, rfl⟩
    · have hstep : tickStep mn mx (mn + (k : ℚ) * ((mx - mn) / 6))
          = mn + (((k + 1 : ℕ)) : ℚ) * ((mx - mn) / 6) := by
        simp only [tickStep]
        rw [if_neg hsnap]
        push_cast
        ring
      obtain ⟨l, hl⟩ := ih (k + 1) (by omega)
      rw [hstep, hl]
      exact ⟨_, rfl⟩

/-- Termination of the tick loop over exact rationals, for every range. -/
lemma tickLoopAux_total (mn mx : ℚ) : ∃ l, tickLoopAux 8 mn mx mn = some l := by
  rcases lt_trichotomy mn mx with h | h | h
  · obtain ⟨l, hl⟩ := tickLoopAux_ladder mn mx h 6 0 (by omega)
    refine ⟨l, ?_⟩
    rw [show ((6 : ℕ) + 2) = 8 by omega] at hl
    simpa using hl
  · subst h
    exact ⟨[mn], tickLoopAux_at_max 8 mn mn (by norm_num)⟩
  · refine ⟨[mn, mx], ?_⟩
    rw [show (8 : ℕ) = 7 + 1 by omega, tickLoopAux_succ, if_neg (ne_of_gt h)]
    have hstep : tickStep mn mx mn = mx := by
      simp only [tickStep]
      rw [if_pos (by linarith)]
    rw [hstep, tickLoopAux_at_max 7 mn mx (by norm_num)]
    rfl

/-- When the range is at least 6 wide, the snap rule never fires early and the
loop walks the exact seven-step ladder from `min_value` to `max_value`. -/
lemma tickLoopAux_exact (mn mx : ℚ) (h6 : 6 ≤ mx - mn) :
    ∀ j k : ℕ, j + k = 6 →
      tickLoopAux (j + 2) mn mx (mn + (k : ℚ) * ((mx - mn) / 6)) =
        some ((List.range (j + 1)).map
          (fun i : ℕ => mn + ((k : ℚ) + (i : ℚ)) * ((mx - mn) / 6))) := by
  have hmn : mn < mx := by linarith
  have hs1 : 1 ≤ (mx - mn) / 6 := by
    rw [le_div_iff (by norm_num : (0 : ℚ) < 6)]
    linarith
  have hmx6 : mx = mn + 6 * ((mx - mn) / 6) := by field_simp
  intro j
  induction j with
  | zero =>
    intro k hk
    obtain rfl : k = 6 := by omega
    have hval : mn + ((6 : ℕ) : ℚ) * ((mx - mn) / 6) = mx := by
      push_cast
      field_simp
    rw [hval, tickLoopAux_at_max 2 mn mx (by norm_num)]
    have hlist : (List.range 1).map
        (fun i : ℕ => mn + (((6 : ℕ) : ℚ) + (i : ℚ)) * ((mx - mn) / 6)) = [mx] := by
      rw [show List.range 1 = [0] from rfl, List.map_cons, List.map_nil]
      congr 1
      push_cast
      linarith
    rw [hlist]
  | succ j ih =>
    intro k hk
    have hk5 : k ≤ 5 := by omega
    have hk5q : (k : ℚ) ≤ 5 := by exact_mod_cast hk5
    have hspos : 0 < (mx - mn) / 6 := by linarith
    have hvlt : mn + (k : ℚ) * ((mx - mn) / 6) < mx := by nlinarith
    have hstep : tickStep mn mx (mn + (k : ℚ) * ((mx - mn) / 6))
        = mn + (((k + 1 : ℕ)) : ℚ) * ((mx - mn) / 6) := by
      simp only [tickStep]
      by_cases hk5' : k = 5
      · subst hk5'
        rw [if_pos (by push_cast; nlinarith)]
        push_cast
        linarith [hmx6]
      · have hk4 : (k : ℚ) ≤ 4 := by
          have : k ≤ 4 := by omega
          exact_mod_cast this
        rw [if_neg (by push_cast; nlinarith)]
        push_cast
        ring
    have hlist : (List.range (j + 1 + 1)).map
          (fun i : ℕ => mn + ((k : ℚ) + (i : ℚ)) * ((mx - mn) / 6))
        = (mn + (k : ℚ) * ((mx - mn) / 6)) ::
          (List.range (j + 1)).map
            (fun i : ℕ => mn + (((k + 1 : ℕ) : ℚ) + (i : ℚ)) * ((mx - mn) / 6)) := by
      rw [List.range_succ_eq_map, List.map_cons, List.map_map]
      congr 1
      · push_cast
        ring
      · refine (List.map_congr_left ?_).symm
        intro i _
        simp only [Function.comp_apply]
        push_cast
        ring
    rw [show j + 1 + 2 = (j + 2) + 1 by omega, tickLoopAux_succ, if_neg (ne_of_lt hvlt),
      hstep, ih (k + 1) (by omega), Option.map_some', hlist]

/- ### Helper lemmas about the paint pass -/

lemma Gauge.paint_fst (g : Gauge) (ui : UiStyle) (outer_rect : Rect) :
    (g.paint ui outer_rect).1 = g := by
  by_cases hg : g.text.isEmpty <;>
    simp [Gauge.paint, Gauge.paint_background_circle, Gauge.paint_colored_circle,
      Gauge.paint_center_mask, Gauge.paint_skirt_mask, Gauge.paint_end_caps,
      Gauge.paint_value_circle, Gauge.write_center_value,
      Gauge.write_values_around_circle, Gauge.write_text, hg]

lemma Gauge.paint_snd (g : Gauge) (ui : UiStyle) (outer_rect : Rect) :
    (g.paint ui outer_rect).2 =
      (g.paint_background_circle (g.insetRect outer_rect) (arcBgColor ui) ui.bg_fill).2
      ++ (g.paint_colored_circle (g.insetRect outer_rect) ui.bg_fill).2
      ++ (g.paint_center_mask (g.insetRect outer_rect) ui.bg_fill).2
      ++ (g.paint_skirt_mask (g.insetRect outer_rect) ui.bg_fill).2
      ++ (g.paint_end_caps (g.insetRect outer_rect) ui.bg_fill (arcBgColor ui)).2
      ++ (g.paint_value_circle (g.insetRect outer_rect)).2
      ++ (g.write_center_value (g.insetRect outer_rect) ui.text_color).2
      ++ (g.write_values_around_circle (g.insetRect outer_rect) ui.text_color).2
      ++ (if g.text.isEmpty then ([] : List PaintOp)
          else (g.write_text ui (g.insetRect outer_rect) ui.text_color).2) := by
  by_cases hg : g.text.isEmpty <;>
    simp [Gauge.paint, Gauge.paint_background_circle, Gauge.paint_colored_circle,
      Gauge.paint_center_mask, Gauge.paint_skirt_mask, Gauge.paint_end_caps,
      Gauge.paint_value_circle, Gauge.write_center_value,
      Gauge.write_values_around_circle, Gauge.write_text, hg]

lemma Gauge.center_insetRect (g : Gauge) (x0 y0 : ℚ) :
    g.center (g.insetRect (squareRect x0 y0 g.size)) =
      ⟨x0 + g.size / 2, y0 + g.size / 2⟩ := by
  simp only [Gauge.center, Gauge.insetRect, squareRect, Rect.left, Rect.bottom,
    Rect.width, Rect.height, Gauge.text_clearance, Pos2.mk.injEq]
  constructor <;> ring

lemma Gauge.paint_radii (g : Gauge) (hd : 0 < g.size) :
    (0 ≤ g.radius ∧ g.radius < g.size / 2) ∧
    (0 ≤ g.radius - g.thickness ∧ g.radius - g.thickness < g.size / 2) ∧
    (0 ≤ g.radius - g.thickness / 2 ∧ g.radius - g.thickness / 2 < g.size / 2) ∧
    (0 ≤ g.radius + g.thickness ∧ g.radius + g.thickness < g.size / 2) := by
  simp only [Gauge.radius, Gauge.thickness, Gauge.inner_width, Gauge.text_clearance]
  refine ⟨⟨?_, ?_⟩, ⟨?_, ?_⟩, ⟨?_, ?_⟩, ⟨?_, ?_⟩⟩ <;> linarith

lemma Gauge.polar_insideRect (g : Gauge) (x0 y0 : ℚ) (hd : 0 < g.size)
    (a : ℤ) (r : ℚ) (h0 : 0 ≤ r) (hr : r < g.size / 2) :
    insideRect (squareRect x0 y0 g.size)
      ⟨g.x_f (g.insetRect (squareRect x0 y0 g.size)) a r,
       g.y_f (g.insetRect (squareRect x0 y0 g.size)) a r⟩ := by
  have hcos1 : cosDeg a ≤ 1 := Real.cos_le_one _
  have hcos2 : -1 ≤ cosDeg a := Real.neg_one_le_cos _
  have hsin1 : sinDeg a ≤ 1 := Real.sin_le_one _
  have hsin2 : -1 ≤ sinDeg a := Real.neg_one_le_sin _
  have h0R : (0 : ℝ) ≤ (r : ℝ) := by exact_mod_cast h0
  have hrR : (r : ℝ) < (g.size : ℝ) / 2 := by exact_mod_cast hr
  have b1 : cosDeg a * (r : ℝ) ≤ (r : ℝ) := by nlinarith
  have b2 : -(r : ℝ) ≤ cosDeg a * (r : ℝ) := by nlinarith
  have b3 : sinDeg a * (r : ℝ) ≤ (r : ℝ) := by nlinarith
  have b4 : -(r : ℝ) ≤ sinDeg a * (r : ℝ) := by nlinarith
  simp only [Gauge.x_f, Gauge.y_f, g.center_insetRect x0 y0]
  simp only [insideRect, squareRect]
  refine ⟨?_, ?_, ?_, ?_⟩ <;> (push_cast; linarith)

lemma Gauge.center_insideRect (g : Gauge) (x0 y0 : ℚ) (hd : 0 < g.size) :
    insideRect (squareRect x0 y0 g.size)
      (g.center (g.insetRect (squareRect x0 y0 g.size))).toR := by
  have hdR : (0 : ℝ) < (g.size : ℝ) := by exact_mod_cast hd
  simp only [g.center_insetRect x0 y0, Pos2.toR]
  simp only [insideRect, squareRect]
  refine ⟨?_, ?_, ?_, ?_⟩ <;> (push_cast; linarith)

/- ### Helper lemmas about the angle map -/

lemma truncQ_mono {a b : ℚ} (h : a ≤ b) : truncQ a ≤ truncQ b := by
  unfold truncQ
  by_cases ha : 0 ≤ a
  · rw [if_pos ha, if_pos (ha.trans h)]
    exact Int.floor_le_floor h
  · rw [if_neg ha]
    by_cases hb : 0 ≤ b
    · rw [if_pos hb]
      have h1 : (⌈a⌉ : ℤ) ≤ 0 := by
        rw [Int.ceil_le]
        push_cast
        linarith [not_le.mp ha]
      have h2 : (0 : ℤ) ≤ ⌊b⌋ := by
        rw [Int.le_floor]
        exact_mod_cast hb
      omega
    · rw [if_neg hb]
      exact Int.ceil_le_ceil h

lemma i32sat_mono {a b : ℤ} (h : a ≤ b) : i32sat a ≤ i32sat b :=
  max_le_max le_rfl (min_le_min le_rfl h)

lemma Gauge.value_to_angle_antitone (g : Gauge) (h : g.min_value < g.max_value)
    {v1 v2 : ℚ} (hv : v1 ≤ v2) : g.value_to_angle v2 ≤ g.value_to_angle v1 := by
  unfold Gauge.value_to_angle f64_as_i32
  apply i32sat_mono
  apply truncQ_mono
  have hD : (0 : ℚ) < g.max_value - g.min_value := sub_pos.mpr h
  have hdiv : (v1 - g.min_value) / (g.max_value - g.min_value) ≤
      (v2 - g.min_value) / (g.max_value - g.min_value) :=
    by gcongr <;> linarith
  linarith

lemma Gauge.value_to_angle_min_eq (g : Gauge) (h : g.min_value < g.max_value) :
    g.value_to_angle g.min_value = 225 := by
  have hq : (270 - ((g.min_value - g.min_value) / (g.max_value - g.min_value)) * 270) - 45
      = (225 : ℚ) := by
    rw [sub_self, zero_div, zero_mul]
    norm_num
  rw [Gauge.value_to_angle, hq]
  norm_num [f64_as_i32, truncQ, i32sat]

lemma Gauge.value_to_angle_max_eq (g : Gauge) (h : g.min_value < g.max_value) :
    g.value_to_angle g.max_value = -45 := by
  have hD : g.max_value - g.min_value ≠ 0 := sub_ne_zero.mpr h.ne'
  have hq : (270 - ((g.max_value - g.min_value) / (g.max_value - g.min_value)) * 270) - 45
      = (-45 : ℚ) := by
    rw [div_self hD]
    norm_num
  rw [Gauge.value_to_angle, hq, f64_as_i32, truncQ, if_neg (by norm_num)]
  rw [show (-45 : ℚ) = ((-45 : ℤ) : ℚ) by norm_num, Int.ceil_intCast]
  norm_num [i32sat]

/- ### Claims about the value-to-angle map -/

/-- Claim C1: for every range with `min_value < max_value`, the value-to-angle
mapping returns exactly 225 at `value = min_value` and exactly −45 at
`value = max_value`, after truncation to integer degrees. -/
theorem C1_angle_at_endpoints (g : Gauge) (h : g.min_value < g.max_value) :
    g.value_to_angle g.min_value = 225 ∧ g.value_to_angle g.max_value = -45 :=
  ⟨g.value_to_angle_min_eq h, g.value_to_angle_max_eq h⟩

/-- Witness for C1 at the range `0..=100`. -/
theorem C1_angle_at_endpoints_witness :
    (0 : ℚ) < 100 ∧
    ((Gauge.new 50 0 100 200 Color32.WHITE).value_to_angle 0 = 225 ∧
     (Gauge.new 50 0 100 200 Color32.WHITE).value_to_angle 100 = -45) :=
  ⟨by norm_num,
   C1_angle_at_endpoints (Gauge.new 50 0 100 200 Color32.WHITE) (by norm_num [Gauge.new])⟩

/-- Counterexample to claim C2: within the range `0..=1000`, the values 1 and 2
satisfy `min < v1 < v2 < max` but both map to the integer angle 224, so the
angle does not strictly decrease. -/
theorem C2_counterexample :
    (0 : ℚ) < 1 ∧ (1 : ℚ) < 2 ∧ (2 : ℚ) < 1000 ∧
    ¬((Gauge.new 0 0 1000 200 Color32.WHITE).value_to_angle 1 >
      (Gauge.new 0 0 1000 200 Color32.WHITE).value_to_angle 2) := by
  refine ⟨by norm_num, by norm_num, by norm_num, ?_⟩
  norm_num [Gauge.new, Gauge.value_to_angle, f64_as_i32, truncQ, i32sat]

/-- Claim C2 (amended): because of truncation to integer degrees, the computed
angle is only weakly decreasing: for `min < v1 < v2 < max` the angle of `v1`
is greater than or equal to (not strictly greater than) the angle of `v2`. -/
theorem C2_angle_weakly_decreasing (g : Gauge) (h : g.min_value < g.max_value)
    {v1 v2 : ℚ} (h1 : g.min_value < v1) (h2 : v1 < v2) (h3 : v2 < g.max_value) :
    g.value_to_angle v1 ≥ g.value_to_angle v2 :=
  g.value_to_angle_antitone h h2.le

/-- Witness for the amended C2 on the range `0..=100` with `v1 = 30`, `v2 = 60`. -/
theorem C2_angle_weakly_decreasing_witness :
    ((0 : ℚ) < 100 ∧ (0 : ℚ) < 30 ∧ (30 : ℚ) < 60 ∧ (60 : ℚ) < 100) ∧
    (Gauge.new 0 0 100 200 Color32.WHITE).value_to_angle 30 ≥
      (Gauge.new 0 0 100 200 Color32.WHITE).value_to_angle 60 :=
  ⟨⟨by norm_num, by norm_num, by norm_num, by norm_num⟩,
   C2_angle_weakly_decreasing (Gauge.new 0 0 100 200 Color32.WHITE)
     (by norm_num [Gauge.new]) (by norm_num [Gauge.new]) (by norm_num)
     (by norm_num [Gauge.new])⟩

/-- Counterexample to claim C3: on the range `0..=100`, the colored wedge for
the larger value 75 contains 204 perimeter angles while the wedge for 25
contains 69, so the wedge of the larger value does not cover less of the dial. -/
theorem C3_counterexample :
    (0 : ℚ) < 25 ∧ (25 : ℚ) < 75 ∧ (75 : ℚ) < 100 ∧
    ¬(((Gauge.new 75 0 100 200 Color32.WHITE).coloredArcAngles).length <
      ((Gauge.new 25 0 100 200 Color32.WHITE).coloredArcAngles).length) := by
  refine ⟨by norm_num, by norm_num, by norm_num, ?_⟩
  norm_num [Gauge.coloredArcAngles, intRangeIncl, Gauge.angle, Gauge.new,
    Gauge.value_to_angle, f64_as_i32, truncQ, i32sat]

/-- Claim C3 (amended): the wedge is swept from the current angle up to the
fixed 225° boundary, so increasing the value leaves MORE colored arc, not
less: for in-range `v1 < v2` the wedge for `v2` contains at least as many
perimeter points as the wedge for `v1` (equality can occur because the angle
is truncated to integer degrees). -/
theorem C3_wedge_grows_with_value (g : Gauge) (h : g.min_value < g.max_value)
    {v1 v2 : ℚ} (h1 : g.min_value ≤ v1) (h2 : v1 < v2) (h3 : v2 ≤ g.max_value) :
    ({ g with value := v1 }.coloredArcAngles).length ≤
      ({ g with value := v2 }.coloredArcAngles).length := by
  have hangle : { g with value := v2 }.angle ≤ { g with value := v1 }.angle := by
    simpa [Gauge.angle, Gauge.value_to_angle] using
      g.value_to_angle_antitone h h2.le
  rw [Gauge.coloredArcAngles, Gauge.coloredArcAngles, intRangeIncl_length, intRangeIncl_length]
  exact Int.toNat_le_toNat (by omega)

/-- Witness for the amended C3 on the range `0..=100` with `v1 = 25`, `v2 = 75`. -/
theorem C3_wedge_grows_with_value_witness :
    ((0 : ℚ) < 100 ∧ (0 : ℚ) ≤ 25 ∧ (25 : ℚ) < 75 ∧ (75 : ℚ) ≤ 100) ∧
    (({ Gauge.new 0 0 100 200 Color32.WHITE with value := 25 }).coloredArcAngles).length ≤
      (({ Gauge.new 0 0 100 200 Color32.WHITE with value := 75 }).coloredArcAngles).length :=
  ⟨⟨by norm_num, by norm_num, by norm_num, by norm_num⟩,
   C3_wedge_grows_with_value (Gauge.new 0 0 100 200 Color32.WHITE)
     (by norm_num [Gauge.new]) (by norm_num [Gauge.new]) (by norm_num)
     (by norm_num [Gauge.new])⟩

/-- Claim C7: values outside `[min_value, max_value]` are mapped by the same
linear formula with no clamping; the resulting integer angle lies at or
beyond the two ends of the visible 270° arc (at or above 225° below the
range, at or below −45° above it), so the indicator may leave the visible
arc; no error or adjustment occurs. -/
theorem C7_extrapolation (g : Gauge) (h : g.min_value < g.max_value) :
    (∀ v, v < g.min_value → 225 ≤ g.value_to_angle v) ∧
    (∀ v, g.max_value < v → g.value_to_angle v ≤ -45) := by
  constructor
  · intro v hv
    have := g.value_to_angle_antitone h hv.le
    rw [g.value_to_angle_min_eq h] at this
    exact this
  · intro v hv
    have := g.value_to_angle_antitone h hv.le
    rw [g.value_to_angle_max_eq h] at this
    exact this

/-- Witness for C7 on the range `0..=100` at the out-of-range values −50 and 150. -/
theorem C7_extrapolation_witness :
    (0 : ℚ) < 100 ∧
    225 ≤ (Gauge.new 50 0 100 200 Color32.WHITE).value_to_angle (-50) ∧
    (Gauge.new 50 0 100 200 Color32.WHITE).value_to_angle 150 ≤ -45 :=
  ⟨by norm_num,
   (C7_extrapolation (Gauge.new 50 0 100 200 Color32.WHITE)
     (by norm_num [Gauge.new])).1 (-50) (by norm_num [Gauge.new]),
   (C7_extrapolation (Gauge.new 50 0 100 200 Color32.WHITE)
     (by norm_num [Gauge.new])).2 150 (by norm_num [Gauge.new])⟩

/-- Counterexample to claim C4: on the range `0..=3` (where `min < max`), the
snap-to-max rule fires early and the loop emits the six labels
`[0, 1/2, 1, 3/2, 2, 3]` instead of seven evenly spaced ones. -/
theorem C4_counterexample :
    (0 : ℚ) < 3 ∧ ticksList 0 3 ≠ specTickPositions 0 3 := by
  constructor
  · norm_num
  · norm_num [ticksList, tickLoopAux, tickStep, specTickPositions, List.range_succ]

/-- Claim C4 (amended): when `max_value - min_value ≥ 6`, the tick-label pass
emits labels at exactly seven positions evenly spaced from `min_value` to
`max_value` with step `(max-min)/6`; for narrower ranges the snap-to-max rule
(force-set to max when the remaining distance is below 1.0) merges trailing
positions and fewer than seven labels are emitted. -/
theorem C4_seven_ticks (mn mx : ℚ) (h6 : 6 ≤ mx - mn) :
    ticksList mn mx = specTickPositions mn mx := by
  have h := tickLoopAux_exact mn mx h6 6 0 (by omega)
  rw [show (6 : ℕ) + 2 = 8 by omega] at h
  norm_num at h
  rw [ticksList, h, Option.getD_some, specTickPositions]

/-- Witness for the amended C4 at the range `0..=12`. -/
theorem C4_seven_ticks_witness :
    (6 : ℚ) ≤ 12 - 0 ∧ ticksList 0 12 = specTickPositions 0 12 :=
  ⟨by norm_num, C4_seven_ticks 0 12 (by norm_num)⟩

/-- Counterexample to claim C5: on the range `0..=1/2` the first (non-final)
tick `0` lies within the snap tolerance of `max_value`
(`max_value - 0 = 1/2 < 1.0`), so "no tick other than the final one lies
within floating-point tolerance of max_value" fails for narrow ranges. -/
theorem C5_counterexample :
    (0 : ℚ) < 1 / 2 ∧ ∃ t ∈ (ticksList 0 (1 / 2)).dropLast, (1 / 2 : ℚ) - t < 1 := by
  constructor
  · norm_num
  · refine ⟨0, ?_, by norm_num⟩
    norm_num [ticksList, tickLoopAux, tickStep]

/-- Claim C5 (amended): for every range with `min_value < max_value` the
tick loop terminates (8 iterations of fuel always suffice over exact
rationals), the emitted sequence contains `min_value` and `max_value` exactly
once each, and — provided `max_value - min_value ≥ 1` — no tick other than
the final one lies within the snap tolerance 1.0 of `max_value`.  (For
ranges narrower than 1 the initial `min_value` tick itself lies within the
tolerance, as `C5_counterexample` shows.) -/
theorem C5_tick_loop_props (mn mx : ℚ) (h : mn < mx) :
    (∃ l, tickLoopAux 8 mn mx mn = some l) ∧
    (ticksList mn mx).count mn = 1 ∧
    (ticksList mn mx).count mx = 1 ∧
    (1 ≤ mx - mn → ∀ t ∈ (ticksList mn mx).dropLast, 1 ≤ mx - t) := by
  obtain ⟨l, hl⟩ := tickLoopAux_total mn mx
  have hticks : ticksList mn mx = l := by
    rw [ticksList, hl, Option.getD_some]
  obtain ⟨hhd, hlast, hchain, hdrop⟩ := tickLoopAux_spec 8 mn mx mn l h h.le hl
  have hpw : l.Pairwise (· < ·) := List.chain'_iff_pairwise.mp hchain
  have hnodup : l.Nodup := hpw.imp ne_of_lt
  have hmem_mn : mn ∈ l := List.mem_of_mem_head? (by rw [hhd]; rfl)
  have hmem_mx : mx ∈ l := List.mem_of_mem_getLast? (by rw [hlast]; rfl)
  refine ⟨⟨l, hl⟩, ?_, ?_, ?_⟩
  · rw [hticks]
    exact List.count_eq_one_of_mem hnodup hmem_mn
  · rw [hticks]
    exact List.count_eq_one_of_mem hnodup hmem_mx
  · intro h1 t ht
    rw [hticks] at ht
    obtain ⟨hd1, _⟩ := hdrop t ht
    rcases hd1 with h2 | h2
    · rw [h2]
      linarith
    · exact h2

/-- Witness for the amended C5 at the range `0..=12`. -/
theorem C5_tick_loop_props_witness :
    ((0 : ℚ) < 12 ∧ (1 : ℚ) ≤ 12 - 0) ∧
    (∃ l, tickLoopAux 8 0 12 0 = some l) ∧
    (ticksList 0 12).count 0 = 1 ∧
    (ticksList 0 12).count 12 = 1 ∧
    (∀ t ∈ (ticksList 0 12).dropLast, 1 ≤ (12 : ℚ) - t) :=
  ⟨⟨by norm_num, by norm_num⟩,
   (C5_tick_loop_props 0 12 (by norm_num)).1,
   (C5_tick_loop_props 0 12 (by norm_num)).2.1,
   (C5_tick_loop_props 0 12 (by norm_num)).2.2.1,
   (C5_tick_loop_props 0 12 (by norm_num)).2.2.2 (by norm_num)⟩

/-- Claim C8 is contradicted by the code on NaN input: with
`min_value = NaN` (and any finite `max_value`, here 1), the tick-label loop
of `write_values_around_circle` never terminates — for every fuel bound the
loop is still running — because `value` stays NaN, so both the
`value == max_value` exit test and the `(max_value - value) < 1.0` snap test
are false forever.  The draw call therefore never completes (and keeps
allocating text shapes without bound), rather than merely producing
degenerate geometry. -/
theorem C8_nan_loop_diverges :
    ∀ n : ℕ, tickLoopF n F.nan (F.fin 1) F.nan = none := by
  intro n
  induction n with
  | zero => rfl
  | succ m ih =>
    have hstep : tickStepF F.nan (F.fin 1) F.nan = F.nan := rfl
    calc tickLoopF (m + 1) F.nan (F.fin 1) F.nan
        = (tickLoopF m F.nan (F.fin 1) (tickStepF F.nan (F.fin 1) F.nan)).map
            (fun l => F.nan :: l) := rfl
      _ = none := by rw [hstep, ih]; rfl

/-- Claim C6: a single paint pass emits the layers in exactly this order —
background arc, colored value arc, center mask, skirt mask, end caps, value
indicator, center value text, tick labels, caption text — and the caption
layer is emitted (it is the nonempty galley op list of `write_text`) if and
only if the caption string is non-empty. -/
theorem C6_paint_layer_order (g : Gauge) (ui : UiStyle) (outer_rect : Rect) :
    (g.paint ui outer_rect).2 =
      (g.paint_background_circle (g.insetRect outer_rect) (arcBgColor ui) ui.bg_fill).2
      ++ (g.paint_colored_circle (g.insetRect outer_rect) ui.bg_fill).2
      ++ (g.paint_center_mask (g.insetRect outer_rect) ui.bg_fill).2
      ++ (g.paint_skirt_mask (g.insetRect outer_rect) ui.bg_fill).2
      ++ (g.paint_end_caps (g.insetRect outer_rect) ui.bg_fill (arcBgColor ui)).2
      ++ (g.paint_value_circle (g.insetRect outer_rect)).2
      ++ (g.write_center_value (g.insetRect outer_rect) ui.text_color).2
      ++ (g.write_values_around_circle (g.insetRect outer_rect) ui.text_color).2
      ++ (if g.text.isEmpty then ([] : List PaintOp)
          else (g.write_text ui (g.insetRect outer_rect) ui.text_color).2) ∧
    ((if g.text.isEmpty then ([] : List PaintOp)
      else (g.write_text ui (g.insetRect outer_rect) ui.text_color).2) ≠ []
      ↔ g.text ≠ "") := by
  refine ⟨g.paint_snd ui outer_rect, ?_⟩
  by_cases hg : g.text.isEmpty
  · rw [if_pos hg]
    simp [(String.isEmpty_iff g.text).mp hg]
  · rw [if_neg hg]
    constructor
    · intro _
      intro hs
      rw [hs] at hg
      exact hg rfl
    · intro _
      simp [Gauge.write_text]

/-- Claim C9: drawing is deterministic and pure.  The paint pass (and the
whole `add_contents` call, in either visibility state) returns the gauge
with every field unchanged, and a second call on the returned gauge with the
same host inputs produces exactly the same op list and response. -/
theorem C9_draw_deterministic (g : Gauge) (ui : UiStyle) (outer_rect : Rect)
    (x0 y0 : ℚ) (visible : Bool) :
    (g.paint ui outer_rect).1 = g ∧
    ((g.paint ui outer_rect).1).paint ui outer_rect = g.paint ui outer_rect ∧
    (g.add_contents ui x0 y0 visible).1 = g ∧
    ((g.add_contents ui x0 y0 visible).1).add_contents ui x0 y0 visible
      = g.add_contents ui x0 y0 visible := by
  have h1 : (g.paint ui outer_rect).1 = g := g.paint_fst ui outer_rect
  have h2 : (g.add_contents ui x0 y0 visible).1 = g := by
    cases visible with
    | false => rfl
    | true =>
      show ((g.paint ui _).1, _, _).1 = g
      exact g.paint_fst ui _
  exact ⟨h1, by rw [h1], h2, by rw [h2]⟩

/-- Claim C10: for every positive diameter and every allotted square of side
`size`, every geometry anchor point the paint pass emits — arc perimeter
points (and fan center points) at `radius` and `radius − thickness`,
tick-label anchors at `radius + thickness`, end caps and value indicator at
`radius − thickness/2`, the center text anchor — lies strictly inside the
allotted rectangle, because every radius used is at most
`radius + thickness < size/2`. -/
theorem C10_anchor_points_inside (g : Gauge) (ui : UiStyle) (x0 y0 : ℚ)
    (hd : 0 < g.size) :
    ∀ op ∈ (g.paint ui (squareRect x0 y0 g.size)).2,
      ∀ p ∈ op.anchorPoints, insideRect (squareRect x0 y0 g.size) p := by
  obtain ⟨⟨hA0, hA1⟩, ⟨hB0, hB1⟩, ⟨hC0, hC1⟩, ⟨hD0, hD1⟩⟩ := g.paint_radii hd
  intro op hop p hp
  rw [g.paint_snd ui (squareRect x0 y0 g.size)] at hop
  simp only [List.mem_append] at hop
  rcases hop with ((((((((h | h) | h) | h) | h) | h) | h) | h) | h)
  · simp only [Gauge.paint_background_circle, List.mem_singleton] at h
    subst h
    simp only [PaintOp.anchorPoints] at hp
    rcases List.mem_append.mp hp with hp1 | hp1
    · obtain ⟨a, _, rfl⟩ := List.mem_map.mp hp1
      exact g.polar_insideRect x0 y0 hd a g.radius hA0 hA1
    · rw [List.mem_singleton] at hp1
      subst hp1
      exact g.center_insideRect x0 y0 hd
  · simp only [Gauge.paint_colored_circle, List.mem_singleton] at h
    subst h
    simp only [PaintOp.anchorPoints] at hp
    rcases List.mem_append.mp hp with hp1 | hp1
    · obtain ⟨a, _, rfl⟩ := List.mem_map.mp hp1
      exact g.polar_insideRect x0 y0 hd a g.radius hA0 hA1
    · rw [List.mem_singleton] at hp1
      subst hp1
      exact g.center_insideRect x0 y0 hd
  · simp only [Gauge.paint_center_mask, List.mem_singleton] at h
    subst h
    simp only [PaintOp.anchorPoints] at hp
    obtain ⟨a, _, rfl⟩ := List.mem_map.mp hp
    exact g.polar_insideRect x0 y0 hd a (g.radius - g.thickness) hB0 hB1
  · simp only [Gauge.paint_skirt_mask, List.mem_singleton] at h
    subst h
    simp only [PaintOp.anchorPoints, List.mem_cons, List.not_mem_nil, or_false] at hp
    rcases hp with rfl | rfl | rfl | rfl
    · exact g.polar_insideRect x0 y0 hd (-45) g.radius hA0 hA1
    · exact g.polar_insideRect x0 y0 hd 225 g.radius hA0 hA1
    · exact g.polar_insideRect x0 y0 hd 225 (g.radius - g.thickness) hB0 hB1
    · exact g.polar_insideRect x0 y0 hd (-45) (g.radius - g.thickness) hB0 hB1
  · simp only [Gauge.paint_end_caps, List.mem_cons, List.not_mem_nil, or_false] at h
    rcases h with rfl | rfl
    · simp only [PaintOp.anchorPoints, List.mem_singleton] at hp
      subst hp
      exact g.polar_insideRect x0 y0 hd 225 (g.radius - g.thickness / 2) hC0 hC1
    · simp only [PaintOp.anchorPoints, List.mem_singleton] at hp
      subst hp
      exact g.polar_insideRect x0 y0 hd (-45) (g.radius - g.thickness / 2) hC0 hC1
  · simp only [Gauge.paint_value_circle, List.mem_singleton] at h
    subst h
    simp only [PaintOp.anchorPoints, List.mem_singleton] at hp
    subst hp
    exact g.polar_insideRect x0 y0 hd g.angle (g.radius - g.thickness / 2) hC0 hC1
  · simp only [Gauge.write_center_value, List.mem_singleton] at h
    subst h
    simp only [PaintOp.anchorPoints, List.mem_singleton] at hp
    subst hp
    exact g.center_insideRect x0 y0 hd
  · simp only [Gauge.write_values_around_circle] at h
    obtain ⟨v, _, rfl⟩ := List.mem_map.mp h
    simp only [PaintOp.anchorPoints, List.mem_singleton] at hp
    subst hp
    exact g.polar_insideRect x0 y0 hd (g.value_to_angle v) (g.radius + g.thickness) hD0 hD1
  · by_cases hg : g.text.isEmpty
    · rw [if_pos hg] at h
      exact absurd h (List.not_mem_nil op)
    · rw [if_neg hg] at h
      simp only [Gauge.write_text, List.mem_singleton] at h
      subst h
      simp only [PaintOp.anchorPoints] at hp
      exact absurd hp (List.not_mem_nil p)

/-- Witness for C10 at a gauge of size 75 placed at the origin. -/
theorem C10_anchor_points_inside_witness :
    (0 : ℚ) < (Gauge.new 50 0 100 75 Color32.WHITE).size ∧
    ∀ op ∈ ((Gauge.new 50 0 100 75 Color32.WHITE).paint sampleStyle
        (squareRect 0 0 (Gauge.new 50 0 100 75 Color32.WHITE).size)).2,
      ∀ p ∈ op.anchorPoints,
        insideRect (squareRect 0 0 (Gauge.new 50 0 100 75 Color32.WHITE).size) p :=
  ⟨by norm_num [Gauge.new],
   C10_anchor_points_inside (Gauge.new 50 0 100 75 Color32.WHITE) sampleStyle 0 0
     (by norm_num [Gauge.new])⟩

end EguiGauge
